import Mathlib

/-!
Verification of `bot/utils/embed_flag_input.py` (Tech-Struck repository).

The Python module is shallowly embedded below: strings are `List Char`
(or Lean `String` for dictionary keys and values), Python values that can
appear in the flag dictionaries are `PyVal`, dictionaries are functions
`String → Option PyVal`, and raised exceptions are the `Except PyErr`
monad.  Each definition is translated directly from the corresponding
Python source; theorems about the spec's claims follow at the end.
-/

/-- Python values that flow through the flag dictionaries of the module:
`None`, strings, ints (produced by `colortype`), booleans (produced by
`store_true` / `store_false` flags) and lists of strings (produced by
`nargs="+"` flags). -/
inductive PyVal where
  | none
  | str (s : String)
  | int (n : Int)
  | bool (b : Bool)
  | list (l : List String)
deriving DecidableEq

/-- Python truthiness for the values of `PyVal`. -/
def PyVal.truthy : PyVal → Bool
  | PyVal.none => false
  | PyVal.str s => !(s == "")
  | PyVal.int n => !(n == 0)
  | PyVal.bool b => b
  | PyVal.list l => !l.isEmpty

/-- The exceptions the module can raise: Python's built-in `KeyError` and
`TypeError`, plus the module's own `InvalidFieldArgs`, `EmbeyEmbedError`
(the "empty embed" error), `InvalidUrl` and `InvalidColor`. -/
inductive PyErr where
  | keyError (k : String)
  | typeError
  | invalidFieldArgs
  | emptyEmbed
  | invalidUrl (value : List Char) (https_only : Bool)
  | invalidColor (value : List Char)
deriving DecidableEq

/-! ### The color converter `colortype`

`colortype(value)` is `int(value.removeprefix("#"), base=16)`, with a
`ValueError` converted into `InvalidColor`.  The CPython `int(·, 16)`
literal grammar is embedded faithfully: optional surrounding whitespace,
an optional sign, an optional `0x`/`0X` prefix (optionally followed by a
single underscore), then hex digits in which single underscores may occur
between digits. -/

/-- The 22 characters accepted as hexadecimal digits. -/
def hexChars : List Char := "0123456789abcdefABCDEF".data

def isHexDigitChar (c : Char) : Bool := hexChars.contains c

/-- Numeric value of a hexadecimal digit. -/
def hexDigitVal (c : Char) : Nat :=
  if 97 ≤ c.toNat then c.toNat - 87
  else if 65 ≤ c.toNat then c.toNat - 55
  else c.toNat - 48

/-- Base-16 value of a digit string (most significant digit first). -/
def hexListVal (l : List Char) : Nat :=
  l.foldl (fun acc c => acc * 16 + hexDigitVal c) 0

/-- The characters Python's `int` strips around a numeric literal. -/
def pyIsSpace (c : Char) : Bool :=
  (" \t\n\r".data).contains c || c.toNat == 11 || c.toNat == 12

/-- Hex digits after the first one; single underscores may separate digits. -/
def parseHexTail (acc : Nat) : List Char → Option Nat
  | [] => some acc
  | c :: rest =>
    if c = '_' then
      match rest with
      | [] => Option.none
      | c2 :: rest2 =>
        if isHexDigitChar c2 then parseHexTail (acc * 16 + hexDigitVal c2) rest2
        else Option.none
    else if isHexDigitChar c then parseHexTail (acc * 16 + hexDigitVal c) rest
    else Option.none

/-- A non-empty underscore-separated hex digit string. -/
def parseHexDigits (s : List Char) : Option Nat :=
  match s with
  | [] => Option.none
  | c :: rest => if isHexDigitChar c then parseHexTail (hexDigitVal c) rest else Option.none

/-- After a `0x` prefix a single leading underscore is allowed. -/
def parseHexAfterPre (s : List Char) : Option Nat :=
  match s with
  | [] => parseHexDigits []
  | c :: r => if c = '_' then parseHexDigits r else parseHexDigits (c :: r)

/-- The unsigned part of the literal: optional `0x`/`0X` prefix, then digits. -/
def parseHexBody (s : List Char) : Option Nat :=
  match s with
  | [] => parseHexDigits []
  | [c] => parseHexDigits [c]
  | c0 :: c1 :: rest =>
    if c0 = '0' && (c1 = 'x' || c1 = 'X') then parseHexAfterPre rest
    else parseHexDigits (c0 :: c1 :: rest)

/-- Optional sign in front of the literal. -/
def pyIntSigned (s : List Char) : Option Int :=
  match s with
  | [] => (parseHexBody []).map (fun n => (n : Int))
  | c :: r =>
    if c = '+' then (parseHexBody r).map (fun n => (n : Int))
    else if c = '-' then (parseHexBody r).map (fun n => -(n : Int))
    else (parseHexBody (c :: r)).map (fun n => (n : Int))

/-- Whitespace stripped from both ends of the literal. -/
def stripPy (s : List Char) : List Char :=
  ((s.dropWhile pyIsSpace).reverse.dropWhile pyIsSpace).reverse

/-- CPython's `int(s, base=16)`: `none` is a `ValueError`. -/
def pyIntHex (s : List Char) : Option Int := pyIntSigned (stripPy s)

/-- Python's `value.removeprefix("#")`. -/
def stripHash : List Char → List Char
  | '#' :: r => r
  | s => s

/-- Source `colortype`: `int(value.removeprefix("#"), base=16)`,
raising `InvalidColor` on `ValueError`. -/
def colortype (s : List Char) : Except PyErr Int :=
  match pyIntHex (stripHash s) with
  | some n => Except.ok n
  | Option.none => Except.error (PyErr.invalidColor s)

/-- The spec's regular expression `^#?[0-9a-fA-F]+$` as a predicate. -/
def colorPat (s : List Char) : Bool :=
  let t := stripHash s
  (!t.isEmpty) && t.all isHexDigitChar

/-! ### The mention rewriter `process_message_mentions`

`re.findall(r"(role|user):(\d{18})", message)` scans left to right; at
each position it tries the literal `role:` (then `user:`) followed by
exactly 18 digits, with no anchoring, and resumes after a match.  Every
found pair is then substituted with `str.replace` (all occurrences), and
finally the `mention:`/`ping:` shorthands for `everyone`/`here` are
replaced. -/

inductive TokKind where
  | role
  | user
deriving DecidableEq

def tokName : TokKind → List Char
  | TokKind.role => ['r', 'o', 'l', 'e']
  | TokKind.user => ['u', 's', 'e', 'r']

def roleTok : List Char := ['r', 'o', 'l', 'e', ':']

def userTok : List Char := ['u', 's', 'e', 'r', ':']

/-- Match exactly `n` decimal digits, returning them and the remainder. -/
def grabDigits : Nat → List Char → Option (List Char × List Char)
  | 0, s => some ([], s)
  | _ + 1, [] => Option.none
  | n + 1, c :: r =>
    if c.isDigit then (grabDigits n r).map (fun p => (c :: p.1, p.2))
    else Option.none

/-- One attempt of the regex `(role|user):(\d{18})` at the head of `s`. -/
def tryMatch (s : List Char) : Option (TokKind × List Char × List Char) :=
  if roleTok.isPrefixOf s then
    match grabDigits 18 (s.drop 5) with
    | some (id, rest) => some (TokKind.role, id, rest)
    | Option.none => Option.none
  else if userTok.isPrefixOf s then
    match grabDigits 18 (s.drop 5) with
    | some (id, rest) => some (TokKind.user, id, rest)
    | Option.none => Option.none
  else Option.none

/-- Python `re.findall`: scan left to right, resuming after each match.  `fuel`
is the scan budget; `s.length` always suffices. -/
def findAllTok : Nat → List Char → List (TokKind × List Char)
  | 0, _ => []
  | _ + 1, [] => []
  | fuel + 1, c :: rest =>
    match tryMatch (c :: rest) with
    | some (k, id, s2) => (k, id) :: findAllTok fuel s2
    | Option.none => findAllTok fuel rest

/-- Python `str.replace`: replace all non-overlapping occurrences of `pat`,
left to right.  `fuel` is the scan budget; `s.length` always suffices
for a non-empty pattern. -/
def replaceAll : Nat → List Char → List Char → List Char → List Char
  | 0, _, _, s => s
  | _ + 1, _, _, [] => []
  | fuel + 1, pat, rep, c :: rest =>
    if pat.isPrefixOf (c :: rest) then rep ++ replaceAll fuel pat rep ((c :: rest).drop pat.length)
    else c :: replaceAll fuel pat rep rest

/-- The literal text of a matched token, `_type + ":" + _id`. -/
def patOf (k : TokKind) (id : List Char) : List Char := tokName k ++ ':' :: id

/-- The replacement: `<@!id>` for users, `<@&id>` for roles. -/
def mentionText (k : TokKind) (id : List Char) : List Char :=
  match k with
  | TokKind.user => ['<', '@', '!'] ++ id ++ ['>']
  | TokKind.role => ['<', '@', '&'] ++ id ++ ['>']

/-- The `(label, role)` pairs of the final two nested loops, in order. -/
def labelRolePairs : List (List Char × List Char) :=
  [ (['m', 'e', 'n', 't', 'i', 'o', 'n'], ['e', 'v', 'e', 'r', 'y', 'o', 'n', 'e']),
    (['m', 'e', 'n', 't', 'i', 'o', 'n'], ['h', 'e', 'r', 'e']),
    (['p', 'i', 'n', 'g'], ['e', 'v', 'e', 'r', 'y', 'o', 'n', 'e']),
    (['p', 'i', 'n', 'g'], ['h', 'e', 'r', 'e']) ]

/-- Source `process_message_mentions`. -/
def process_message_mentions (message : List Char) : List Char :=
  if message.isEmpty then []
  else
    let toks := findAllTok message.length message
    let m1 := toks.foldl
      (fun m t => replaceAll m.length (patOf t.1 t.2) (mentionText t.1 t.2) m) message
    labelRolePairs.foldl
      (fun m p => replaceAll m.length (p.1 ++ ':' :: p.2) ('@' :: p.2) m) m1

/-! ### The URL validator `UrlValidator`

`urllib.parse.urlparse` is embedded for the two components the validator
reads: `scheme` (the part before the first `:` when it is non-empty and
made of scheme characters, lowercased) and `hostname` (from the netloc
after `//`: the part after the last `@`, up to `:` — or bracketed for
IPv6 — lowercased, `None` when empty). -/

def isSchemeChar (c : Char) : Bool :=
  c.isAlpha || c.isDigit || c == '+' || c == '-' || c == '.'

/-- Scheme extraction of `urlsplit`: `(scheme, rest)`. -/
def splitScheme (s : List Char) : List Char × List Char :=
  let pre := s.takeWhile (fun c => !(c == ':'))
  if pre.length = s.length then ([], s)
  else if (!pre.isEmpty) && pre.all isSchemeChar then
    (pre.map Char.toLower, s.drop (pre.length + 1))
  else ([], s)

def isNetlocEnd (c : Char) : Bool := c == '/' || c == '?' || c == '#'

/-- Netloc extraction: non-empty only when the remainder starts with `//`;
then it runs until the next `/`, `?` or `#`. -/
def splitNetloc (s : List Char) : List Char :=
  match s with
  | '/' :: '/' :: rest => rest.takeWhile (fun c => !(isNetlocEnd c))
  | _ => []

/-- Python `netloc.rpartition("@")[2]`: the part after the last `@`. -/
def afterLastAt (l : List Char) : List Char :=
  (l.reverse.takeWhile (fun c => !(c == '@'))).reverse

/-- The `hostname` property: strip userinfo, then either the bracketed
IPv6 host or the part before the port separator, lowercased; `None` when
empty. -/
def hostnameOf (netloc : List Char) : Option (List Char) :=
  let hostinfo := afterLastAt netloc
  let h :=
    if hostinfo.any (fun c => c == '[') then
      ((hostinfo.dropWhile (fun c => !(c == '['))).drop 1).takeWhile (fun c => !(c == ']'))
    else hostinfo.takeWhile (fun c => !(c == ':'))
  if h.isEmpty then Option.none else some (h.map Char.toLower)

def urlScheme (value : List Char) : List Char := (splitScheme value).1

def urlHostname (value : List Char) : Option (List Char) :=
  hostnameOf (splitNetloc (splitScheme value).2)

/-- The allowed schemes: `("https",)` when `https_only` else `("http", "https")`. -/
def allowedSchemes (https_only : Bool) : List (List Char) :=
  if https_only then [['h', 't', 't', 'p', 's']]
  else [['h', 't', 't', 'p'], ['h', 't', 't', 'p', 's']]

/-- Source `UrlValidator.__call__`. -/
def urlValidator (https_only : Bool) (value : List Char) : Except PyErr (List Char) :=
  if (!(allowedSchemes https_only).contains (urlScheme value)) || (urlHostname value).isNone
  then Except.error (PyErr.invalidUrl value https_only)
  else Except.ok value

/-- Source `url_type = UrlValidator(https_only=True)`. -/
def url_type (value : List Char) : Except PyErr (List Char) := urlValidator true value

/-! ### The flag group registry `FlagAdder`

`kwarg_map` is a Python dict mapping group names to tuples of
`flags.add_flag(...)` decorators; insertion order is modelled by an
association list.  A decorator mutates and returns the decorated command
function, modelled as a function `α → α` over an abstract target type. -/

structure FlagAdder (α : Type) where
  kwarg_map : List (String × List (α → α))
  default_mode : Bool

/-- Source `FlagAdder.apply`: `for flag in flags: flag(func)`. -/
def FlagAdder.applyFlags (fl : List (α → α)) (func : α) : α :=
  fl.foldl (fun f g => g f) func

/-- Source `FlagAdder.call`.  When `all` is truthy every group is applied in
registration order.  Otherwise the defaults are merged with the given
keyword arguments (`{**{k: self.default_mode for k in ...}, **kwargs}`,
iterated in that order) and each truthy selector applies its group;
a truthy selector that is not a registered group raises `KeyError`. -/
def FlagAdder.call (fa : FlagAdder α) (func : α) (kwargs : List (String × Bool)) :
    Except PyErr α :=
  if (kwargs.lookup "all").getD false then
    Except.ok (fa.kwarg_map.foldl (fun f g => FlagAdder.applyFlags g.2 f) func)
  else
    let kw2 := kwargs.filter (fun p => !(p.1 == "all"))
    let merged := fa.kwarg_map.map (fun g => (g.1, (kw2.lookup g.1).getD fa.default_mode))
    let extras := kw2.filter (fun p => (fa.kwarg_map.lookup p.1).isNone)
    (merged ++ extras).foldlM
      (fun f p =>
        if p.2 then
          match fa.kwarg_map.lookup p.1 with
          | some fl => Except.ok (FlagAdder.applyFlags fl f)
          | Option.none => Except.error (PyErr.keyError p.1)
        else Except.ok f)
      func

/-! ### Dictionaries -/

/-- The `data` dictionaries passed to the assemblers. -/
def Dict := String → Option PyVal

def Dict.empty : Dict := fun _ => Option.none

def Dict.ofList (l : List (String × PyVal)) : Dict := fun k => l.lookup k

/-- Python `dict.pop(k)` without default: the looked-up value and the dictionary
with the key removed. -/
def Dict.pop (d : Dict) (k : String) : Option PyVal × Dict :=
  (d k, fun k2 => if k2 = k then Option.none else d k2)

/-- Python `dict.pop(k, None)`. -/
def Dict.popD (d : Dict) (k : String) : PyVal × Dict :=
  ((d k).getD PyVal.none, (d.pop k).2)

/-! ### The embed assembler `dict_to_embed`

`discord.Embed` is modelled by the attributes this module can populate;
an attribute that was never set is `Option.none` (discord.py's
`EmptyEmbed` sentinel), and `embed.to_dict() == {"type": "rich"}` is
`Embed.isEmptyRich`. -/

structure EmbedAuthor where
  name : PyVal
  icon_url : Option PyVal
  url : Option PyVal
deriving DecidableEq

structure EmbedFooter where
  text : PyVal
  icon_url : Option PyVal
deriving DecidableEq

structure Embed where
  title : Option PyVal
  description : Option PyVal
  colour : Option PyVal
  thumbnail : Option PyVal
  image : Option PyVal
  author : Option EmbedAuthor
  footer : Option EmbedFooter
  fields : List (String × String)
deriving DecidableEq

/-- The fresh `Embed()`. -/
def Embed.empty : Embed :=
  ⟨Option.none, Option.none, Option.none, Option.none, Option.none,
   Option.none, Option.none, []⟩

/-- The check `embed.to_dict() == {"type": "rich"}`: nothing was populated. -/
def Embed.isEmptyRich (e : Embed) : Bool :=
  e.title.isNone && e.description.isNone && e.colour.isNone && e.thumbnail.isNone &&
    e.image.isNone && e.author.isNone && e.footer.isNone && e.fields.isEmpty

/-- The message author argument (`User`/`Member`): `str(author.avatar_url)`
is modelled as the `avatar_url` field itself. -/
structure DUser where
  display_name : String
  avatar_url : String
deriving DecidableEq

/-- Source loop `for field in ("title", "description", "colour"): if (value :=
data.pop(field, None)): setattr(embed, field, value)`. -/
def setSimpleAttrs (d : Dict) (e : Embed) : Embed × Dict :=
  let p1 := d.popD "title"
  let e1 := if p1.1.truthy then { e with title := some p1.1 } else e
  let p2 := p1.2.popD "description"
  let e2 := if p2.1.truthy then { e1 with description := some p2.1 } else e1
  let p3 := p2.2.popD "colour"
  let e3 := if p3.1.truthy then { e2 with colour := some p3.1 } else e2
  (e3, p3.2)

/-- Source loop `for field in "thumbnail", "image": if (value := data.pop(field, None)):
getattr(embed, "set_" + field)(url=value)`. -/
def setImageAttrs (d : Dict) (e : Embed) : Embed × Dict :=
  let p1 := d.popD "thumbnail"
  let e1 := if p1.1.truthy then { e with thumbnail := some p1.1 } else e
  let p2 := p1.2.popD "image"
  let e2 := if p2.1.truthy then { e1 with image := some p2.1 } else e1
  (e2, p2.2)

/-- The two author branches: `if data.pop("autoauthor") and author: ...`
(a `KeyError` when the key is absent) followed by
`if "authorname" in data and data["authorname"]: ...`. -/
def setAuthorAttrs (d : Dict) (author : Option DUser) (e : Embed) :
    Except PyErr (Embed × Dict) :=
  match d "autoauthor" with
  | Option.none => Except.error (PyErr.keyError "autoauthor")
  | some va =>
    let d1 := (d.pop "autoauthor").2
    let e1 :=
      if va.truthy then
        match author with
        | some u =>
          { e with author := some ⟨PyVal.str u.display_name,
              some (PyVal.str u.avatar_url), Option.none⟩ }
        | Option.none => e
      else e
    let nameCond :=
      match d1 "authorname" with
      | some v => v.truthy
      | Option.none => false
    if nameCond then
      let pIcon := d1.popD "authoricon"
      let kIcon := if pIcon.1.truthy then some pIcon.1 else Option.none
      let pUrl := pIcon.2.popD "authorurl"
      let kUrl := if pUrl.1.truthy then some pUrl.1 else Option.none
      let vName := (pUrl.2 "authorname").getD PyVal.none
      Except.ok ({ e1 with author := some ⟨vName, kIcon, kUrl⟩ },
        (pUrl.2.pop "authorname").2)
    else Except.ok (e1, d1)

/-- Source branch `if "footertext" in data and data["footertext"]: ...`. -/
def setFooterAttrs (d : Dict) (e : Embed) : Embed × Dict :=
  let cond :=
    match d "footertext" with
    | some v => v.truthy
    | Option.none => false
  if cond then
    let pIcon := d.popD "footericon"
    let kIcon := if pIcon.1.truthy then some pIcon.1 else Option.none
    let vText := (pIcon.2 "footertext").getD PyVal.none
    ({ e with footer := some ⟨vText, kIcon⟩ }, (pIcon.2.pop "footertext").2)
  else (e, d)

/-- Source `fields = data.pop("fields") or []` (after the `KeyError` check): a
falsy value yields `[]`; a truthy string acts as its sequence of
one-character strings; a truthy non-sequence would make `len(fields)`
raise `TypeError`. -/
def extractFields (v : PyVal) : Except PyErr (List String) :=
  if v.truthy then
    match v with
    | PyVal.list l => Except.ok l
    | PyVal.str s => Except.ok (s.data.map (fun c => String.mk [c]))
    | _ => Except.error PyErr.typeError
  else Except.ok []

/-- Python slice `fields[::2]`. -/
def sliceStep2 : List String → List String
  | [] => []
  | [a] => [a]
  | a :: _ :: rest => a :: sliceStep2 rest

/-- The tail of `dict_to_embed`: `fields = data.pop("fields") or []`
(`KeyError` when absent), the even-length check, the pairwise
`zip(fields[::2], fields[1::2])` appended as embed fields, and the final
`embed.to_dict() == {"type": "rich"}` emptiness check. -/
def embedFieldsStep (e4 : Embed) (vf? : Option PyVal) : Except PyErr Embed :=
  match vf? with
  | Option.none => Except.error (PyErr.keyError "fields")
  | some vf =>
    match extractFields vf with
    | Except.error err => Except.error err
    | Except.ok fields =>
      if fields.length % 2 = 1 then Except.error PyErr.invalidFieldArgs
      else
        let e5 := { e4 with
          fields := (sliceStep2 fields).zip (sliceStep2 (fields.drop 1)) }
        if e5.isEmptyRich then Except.error PyErr.emptyEmbed
        else Except.ok e5

/-- Source `dict_to_embed`. -/
def dict_to_embed (d : Dict) (author : Option DUser) : Except PyErr Embed :=
  let p1 := setSimpleAttrs d Embed.empty
  let p2 := setImageAttrs p1.2 p1.1
  match setAuthorAttrs p2.2 author p2.1 with
  | Except.error err => Except.error err
  | Except.ok pa =>
    let p4 := setFooterAttrs pa.2 pa.1
    embedFieldsStep p4.1 (p4.2 "fields")

/-- The `(dest, default)` pairs registered by `allowed_mentions_input`:
`--everyonemention` (`store_true`, default `False`), `--rolementions`
(`store_true`, default `False`), `--usermentions` (`store_false`,
default `True`). -/
def allowed_mentions_flag_defaults : List (String × PyVal) :=
  [("everyonemention", PyVal.bool false),
   ("rolementions", PyVal.bool false),
   ("usermentions", PyVal.bool true)]

/-- The policy `discord.AllowedMentions(everyone=..., roles=..., users=...)`. -/
structure AllowedMentions where
  everyone : PyVal
  roles : PyVal
  users : PyVal
deriving DecidableEq

/-- Source `dict_to_allowed_mentions`; the three `pop`s have no
default, so an absent key raises `KeyError` (evaluation is left to
right). -/
def dict_to_allowed_mentions (d : Dict) : Except PyErr AllowedMentions :=
  match d "everyonemention" with
  | Option.none => Except.error (PyErr.keyError "everyonemention")
  | some ve =>
    let d1 := (d.pop "everyonemention").2
    match d1 "rolementions" with
    | Option.none => Except.error (PyErr.keyError "rolementions")
    | some vr =>
      let d2 := (d1.pop "rolementions").2
      match d2 "usermentions" with
      | Option.none => Except.error (PyErr.keyError "usermentions")
      | some vu => Except.ok ⟨ve, vr, vu⟩

/-! ### Helper lemmas -/

theorem mem_hexChars_of_isHex {c : Char} (h : isHexDigitChar c = true) : c ∈ hexChars := by
  simpa [isHexDigitChar, List.contains] using h

theorem pyIsSpace_eq_false_of_isHex {c : Char} (h : isHexDigitChar c = true) :
    pyIsSpace c = false := by
  have hall : hexChars.all (fun c => !pyIsSpace c) = true := by decide
  have := List.all_eq_true.1 hall c (mem_hexChars_of_isHex h)
  simpa using this

theorem ne_of_isHex_of_not {c ch : Char} (h : isHexDigitChar c = true)
    (h2 : isHexDigitChar ch = false) : c ≠ ch := by
  intro he
  rw [he, h2] at h
  cases h

theorem dropWhile_eq_self_of_all {p : Char → Bool} {l : List Char}
    (h : ∀ c ∈ l, p c = false) : l.dropWhile p = l := by
  cases l with
  | nil => rfl
  | cons c r => simp [List.dropWhile_cons, h c (List.mem_cons_self c r)]

theorem stripPy_eq_self_of_all {l : List Char} (h : ∀ c ∈ l, pyIsSpace c = false) :
    stripPy l = l := by
  unfold stripPy
  rw [dropWhile_eq_self_of_all h,
    dropWhile_eq_self_of_all (fun c hc => h c (List.mem_reverse.1 hc)),
    List.reverse_reverse]

theorem parseHexTail_of_all_hex {l : List Char} (h : l.all isHexDigitChar = true)
    (acc : Nat) :
    parseHexTail acc l = some (l.foldl (fun a c => a * 16 + hexDigitVal c) acc) := by
  induction l generalizing acc with
  | nil => rfl
  | cons c r ih =>
    have hc : isHexDigitChar c = true := (List.all_cons .. ▸ h |> Bool.and_elim_left)
    have hr : r.all isHexDigitChar = true := (List.all_cons .. ▸ h |> Bool.and_elim_right)
    have hne : c ≠ '_' := ne_of_isHex_of_not hc (by decide)
    rw [parseHexTail.eq_def]
    simp only
    rw [if_neg hne, if_pos hc, ih hr, List.foldl_cons]

theorem parseHexDigits_of_all_hex {l : List Char} (hne : l ≠ [])
    (h : l.all isHexDigitChar = true) : parseHexDigits l = some (hexListVal l) := by
  cases l with
  | nil => exact absurd rfl hne
  | cons c r =>
    have hc : isHexDigitChar c = true := (List.all_cons .. ▸ h |> Bool.and_elim_left)
    have hr : r.all isHexDigitChar = true := (List.all_cons .. ▸ h |> Bool.and_elim_right)
    rw [parseHexDigits, if_pos hc, parseHexTail_of_all_hex hr, hexListVal,
      List.foldl_cons]
    simp

/-- C2 (amended): every string matching `^#?[0-9a-fA-F]+$` is accepted by
`colortype` with the base-16 value of the string without its leading `#`,
and every `colortype` failure is an `InvalidColor` failure carrying the
input.  (The converse of the first part is false: see the
counterexample.) -/
theorem colortype_pattern_ok :
    (∀ s : List Char, colorPat s = true →
      colortype s = Except.ok (Int.ofNat (hexListVal (stripHash s)))) ∧
    (∀ (s : List Char) (e : PyErr), colortype s = Except.error e →
      e = PyErr.invalidColor s) := by
  constructor
  · intro s h
    unfold colorPat at h
    simp only [Bool.and_eq_true] at h
    obtain ⟨hne0, hall⟩ := h
    have hne : stripHash s ≠ [] := by
      intro hx
      rw [hx] at hne0
      cases hne0
    have hmem : ∀ c ∈ stripHash s, isHexDigitChar c = true := List.all_eq_true.1 hall
    unfold colortype pyIntHex
    rw [stripPy_eq_self_of_all (fun c hc => pyIsSpace_eq_false_of_isHex (hmem c hc))]
    cases hs : stripHash s with
    | nil => exact absurd hs hne
    | cons c r =>
      have hc : isHexDigitChar c = true := hmem c (by rw [hs]; exact List.mem_cons_self ..)
      have hcp : c ≠ '+' := ne_of_isHex_of_not hc (by decide)
      have hcm : c ≠ '-' := ne_of_isHex_of_not hc (by decide)
      rw [pyIntSigned, if_neg hcp, if_neg hcm]
      have hbody : parseHexBody (c :: r) = some (hexListVal (c :: r)) := by
        cases r with
        | nil =>
          rw [parseHexBody, parseHexDigits_of_all_hex (by simp) (by rw [← hs]; exact hall)]
        | cons c1 r1 =>
          have hc1 : isHexDigitChar c1 = true := hmem c1 (by rw [hs]; simp)
          have hx : c1 ≠ 'x' := ne_of_isHex_of_not hc1 (by decide)
          have hX : c1 ≠ 'X' := ne_of_isHex_of_not hc1 (by decide)
          rw [parseHexBody, if_neg (by simp [hx, hX]),
            parseHexDigits_of_all_hex (by simp) (by rw [← hs]; exact hall)]
      rw [hbody, ← hs]
      rfl
  · intro s e h
    unfold colortype at h
    cases hp : pyIntHex (stripHash s) with
    | some n => rw [hp] at h; cases h
    | none => rw [hp] at h; exact (Except.error.inj h).symm

/-- C2 witness: `#fff` matches the pattern and parses to 4095. -/
theorem colortype_pattern_ok_witness :
    colortype ['#', 'f', 'f', 'f'] = Except.ok (Int.ofNat (hexListVal (stripHash ['#', 'f', 'f', 'f']))) :=
  colortype_pattern_ok.1 ['#', 'f', 'f', 'f'] (by decide)

/-- C2 counterexample: `0xff` does not match `^#?[0-9a-fA-F]+$`, yet
`colortype` accepts it (Python's `int(·, 16)` allows a `0x` prefix), so
the claimed "if and only if" is false. -/
theorem colortype_not_pattern_iff :
    colorPat ['0', 'x', 'f', 'f'] = false ∧
      colortype ['0', 'x', 'f', 'f'] = Except.ok 255 := by
  exact ⟨rfl, rfl⟩

theorem all_cons_split {p : Char → Bool} {c : Char} {r : List Char}
    (h : (c :: r).all p = true) : p c = true ∧ r.all p = true := by
  simpa using h

theorem all_drop {l : List Char} {p : Char → Bool} (h : l.all p = true) (n : Nat) :
    (l.drop n).all p = true :=
  List.all_eq_true.2 (fun x hx => List.all_eq_true.1 h x (List.drop_subset _ _ hx))

theorem all_take {l : List Char} {p : Char → Bool} (h : l.all p = true) (n : Nat) :
    (l.take n).all p = true :=
  List.all_eq_true.2 (fun x hx => List.all_eq_true.1 h x (List.take_subset _ _ hx))

theorem ne_digit_of_not_digit {c ch : Char} (h : c.isDigit = true)
    (h2 : ch.isDigit = false) : c ≠ ch := by
  intro he
  rw [he, h2] at h
  cases h

theorem grabDigits_none_of_short {n : Nat} {s : List Char} (h : s.length < n) :
    grabDigits n s = Option.none := by
  induction n generalizing s with
  | zero => omega
  | succ m ih =>
    cases s with
    | nil => rfl
    | cons c r =>
      rw [grabDigits.eq_def]
      simp only
      by_cases hc : c.isDigit
      · rw [if_pos hc, ih (by simpa using Nat.lt_of_succ_lt_succ h)]
        rfl
      · rw [if_neg hc]

theorem grabDigits_all {n : Nat} {s : List Char} (hall : s.all Char.isDigit = true)
    (h : n ≤ s.length) : grabDigits n s = some (s.take n, s.drop n) := by
  induction n generalizing s with
  | zero => simp [grabDigits]
  | succ m ih =>
    cases s with
    | nil => simp at h
    | cons c r =>
      obtain ⟨hc, hr⟩ := all_cons_split hall
      rw [grabDigits.eq_def]
      simp only
      rw [if_pos hc, ih hr (by simpa using Nat.le_of_succ_le_succ h)]
      rfl

theorem tryMatch_nil : tryMatch [] = Option.none := by
  simp [tryMatch, roleTok, userTok, List.isPrefixOf]

theorem tryMatch_digits {s : List Char} (h : s.all Char.isDigit = true) :
    tryMatch s = Option.none := by
  cases s with
  | nil => exact tryMatch_nil
  | cons c r =>
    have hc : c.isDigit = true := (all_cons_split h).1
    have hr1 : (('r' : Char) == c) = false :=
      beq_eq_false_iff_ne.mpr (fun he => ne_digit_of_not_digit hc (by decide) he.symm)
    have hu1 : (('u' : Char) == c) = false :=
      beq_eq_false_iff_ne.mpr (fun he => ne_digit_of_not_digit hc (by decide) he.symm)
    simp [tryMatch, roleTok, userTok, List.isPrefixOf, hr1, hu1]

theorem findAllTok_nil {s : List Char} (fuel : Nat)
    (h : ∀ n, tryMatch (s.drop n) = Option.none) : findAllTok fuel s = [] := by
  induction fuel generalizing s with
  | zero => rfl
  | succ f ih =>
    cases s with
    | nil => rfl
    | cons c r =>
      have h0 : tryMatch (c :: r) = Option.none := h 0
      rw [findAllTok.eq_def]
      simp only
      rw [h0]
      exact ih (fun n => h (n + 1))

theorem replaceAll_of_ne_head {p : Char} {pt rep s : List Char} (fuel : Nat)
    (h : ∀ c ∈ s, c ≠ p) : replaceAll fuel (p :: pt) rep s = s := by
  induction fuel generalizing s with
  | zero => rfl
  | succ f ih =>
    cases s with
    | nil => rfl
    | cons c r =>
      have hpc : (p == c) = false :=
        beq_eq_false_iff_ne.mpr (fun he => h c (List.mem_cons_self ..) he.symm)
      have hb : (p :: pt).isPrefixOf (c :: r) = false := by
        show ((p == c) && List.isPrefixOf pt r) = false
        rw [hpc]
        rfl
      have hrec := ih (fun x hx => h x (List.mem_cons_of_mem _ hx))
      rw [replaceAll.eq_def]
      simp only
      rw [hb]
      simp [hrec]

theorem tryMatch_patOf (k : TokKind) (d : List Char) :
    tryMatch (patOf k d) =
      match grabDigits 18 d with
      | some p => some (k, p.1, p.2)
      | Option.none => Option.none := by
  cases k
  · cases hg : grabDigits 18 d with
    | none => simp [tryMatch, patOf, tokName, roleTok, userTok, List.isPrefixOf, hg]
    | some p =>
      obtain ⟨id, rest⟩ := p
      simp [tryMatch, patOf, tokName, roleTok, userTok, List.isPrefixOf, hg]
  · cases hg : grabDigits 18 d with
    | none => simp [tryMatch, patOf, tokName, roleTok, userTok, List.isPrefixOf, hg]
    | some p =>
      obtain ⟨id, rest⟩ := p
      simp [tryMatch, patOf, tokName, roleTok, userTok, List.isPrefixOf, hg]

theorem labelFold_id {m : List Char} (h : ∀ c ∈ m, c ≠ 'm' ∧ c ≠ 'p') :
    labelRolePairs.foldl
      (fun m p => replaceAll m.length (p.1 ++ ':' :: p.2) ('@' :: p.2) m) m = m := by
  simp only [labelRolePairs, List.foldl_cons, List.foldl_nil, List.cons_append,
    List.nil_append]
  rw [replaceAll_of_ne_head _ (fun c hc => (h c hc).1),
    replaceAll_of_ne_head _ (fun c hc => (h c hc).1),
    replaceAll_of_ne_head _ (fun c hc => (h c hc).2),
    replaceAll_of_ne_head _ (fun c hc => (h c hc).2)]

theorem mem_patOf_not_mp {k : TokKind} {d : List Char} (hd : d.all Char.isDigit = true) :
    ∀ c ∈ patOf k d, c ≠ 'm' ∧ c ≠ 'p' := by
  intro c hc
  have hsplit : c ∈ tokName k ∨ c ∈ ':' :: d := List.mem_append.1 (by simpa [patOf] using hc)
  rcases hsplit with h1 | h2
  · cases k <;> simp [tokName] at h1 <;>
      rcases h1 with rfl | rfl | rfl | rfl <;> exact ⟨by decide, by decide⟩
  · rcases List.mem_cons.1 h2 with rfl | h3
    · exact ⟨by decide, by decide⟩
    · have hcd : c.isDigit = true := List.all_eq_true.1 hd c h3
      exact ⟨ne_digit_of_not_digit hcd (by decide), ne_digit_of_not_digit hcd (by decide)⟩

theorem mem_mentionText_not_mp {k : TokKind} {id : List Char}
    (hid : id.all Char.isDigit = true) :
    ∀ c ∈ mentionText k id, c ≠ 'm' ∧ c ≠ 'p' := by
  intro c hc
  have : c = '<' ∨ c = '@' ∨ c = '!' ∨ c = '&' ∨ c = '>' ∨ c ∈ id := by
    cases k <;> simp [mentionText] at hc <;> tauto
  rcases this with rfl | rfl | rfl | rfl | rfl | hmem
  · exact ⟨by decide, by decide⟩
  · exact ⟨by decide, by decide⟩
  · exact ⟨by decide, by decide⟩
  · exact ⟨by decide, by decide⟩
  · exact ⟨by decide, by decide⟩
  · have hcd : c.isDigit = true := List.all_eq_true.1 hid c hmem
    exact ⟨ne_digit_of_not_digit hcd (by decide), ne_digit_of_not_digit hcd (by decide)⟩

theorem patOf_eq_append (k : TokKind) (d : List Char) :
    patOf k d = (tokName k ++ [':']) ++ d := by
  simp [patOf]

theorem tryMatch_drop_patOf_none {k : TokKind} {d : List Char}
    (hd : d.all Char.isDigit = true) (hshort : d.length < 18) :
    ∀ n, tryMatch ((patOf k d).drop n) = Option.none := by
  intro n
  have hlen5 : (tokName k ++ [':']).length = 5 := by cases k <;> rfl
  rcases n with _ | _ | _ | _ | _ | n
  · have h0 := tryMatch_patOf k d
    rw [grabDigits_none_of_short hshort] at h0
    simpa using h0
  · cases k <;>
      simp [patOf_eq_append, tokName, tryMatch, roleTok, userTok, List.isPrefixOf]
  · cases k <;>
      simp [patOf_eq_append, tokName, tryMatch, roleTok, userTok, List.isPrefixOf]
  · cases k <;>
      simp [patOf_eq_append, tokName, tryMatch, roleTok, userTok, List.isPrefixOf]
  · cases k <;>
      simp [patOf_eq_append, tokName, tryMatch, roleTok, userTok, List.isPrefixOf]
  · have hdrop : (patOf k d).drop (n + 5) = d.drop n := by
      rw [patOf_eq_append]
      have h5 : n + 5 = (tokName k ++ [':']).length + n := by rw [hlen5]; omega
      rw [h5, List.drop_append]
    rw [hdrop]
    exact tryMatch_digits (all_drop hd n)

theorem isPrefixOf_append_self : ∀ (a b : List Char), a.isPrefixOf (a ++ b) = true := by
  intro a b
  induction a with
  | nil => simp [List.isPrefixOf]
  | cons x xs ih => simp [List.isPrefixOf, ih]

theorem findAllTok_single {f : Nat} {s : List Char} {k : TokKind} {id rest : List Char}
    (hm : tryMatch s = some (k, id, rest))
    (hrest : ∀ n, tryMatch (rest.drop n) = Option.none) :
    findAllTok (f + 1) s = [(k, id)] := by
  cases s with
  | nil => rw [tryMatch_nil] at hm; cases hm
  | cons c r =>
    rw [findAllTok.eq_def]
    simp only
    rw [hm]
    show (k, id) :: findAllTok f rest = [(k, id)]
    rw [findAllTok_nil f hrest]

theorem replaceAll_head_match {f : Nat} {p : Char} {pt rep rest : List Char}
    (h : ∀ c ∈ rest, c ≠ p) :
    replaceAll (f + 1) (p :: pt) rep ((p :: pt) ++ rest) = rep ++ rest := by
  have hpre : (p :: pt).isPrefixOf ((p :: pt) ++ rest) = true := isPrefixOf_append_self _ _
  rw [List.cons_append, replaceAll.eq_def]
  simp only
  rw [← List.cons_append, hpre]
  simp only [if_true]
  rw [List.drop_left, replaceAll_of_ne_head f h]

/-- C3 (amended): a `role:`/`user:` token whose id part is shorter than 18
digits is left untouched by `process_message_mentions`; but when 18 or
more digits follow the colon, the first 18 digits are captured and the
token is rewritten, the remaining digits staying behind the inserted
mention. -/
theorem process_message_mentions_id_len (k : TokKind) (d : List Char)
    (hd : d.all Char.isDigit = true) :
    (d.length < 18 → process_message_mentions (patOf k d) = patOf k d) ∧
    (18 ≤ d.length →
      process_message_mentions (patOf k d) =
        mentionText k (d.take 18) ++ d.drop 18) := by
  have hempty : (patOf k d).isEmpty = false := by cases k <;> rfl
  constructor
  · intro hshort
    unfold process_message_mentions
    rw [hempty]
    simp only [Bool.false_eq_true, if_false]
    rw [findAllTok_nil _ (tryMatch_drop_patOf_none hd hshort)]
    simp only [List.foldl_nil]
    exact labelFold_id (mem_patOf_not_mp hd)
  · intro hlong
    have hm16 : (d.take 18).all Char.isDigit = true := all_take hd 18
    have hr2d : (d.drop 18).all Char.isDigit = true := all_drop hd 18
    have htm : tryMatch (patOf k d) = some (k, d.take 18, d.drop 18) := by
      have h0 := tryMatch_patOf k d
      rw [grabDigits_all hd hlong] at h0
      simpa using h0
    have hrest : ∀ n, tryMatch ((d.drop 18).drop n) = Option.none :=
      fun n => tryMatch_digits (all_drop hr2d n)
    have hd2 : d = d.take 18 ++ d.drop 18 := (List.take_append_drop 18 d).symm
    have hmm2 : ∀ c ∈ mentionText k (d.take 18) ++ d.drop 18, c ≠ 'm' ∧ c ≠ 'p' := by
      intro c hc
      rcases List.mem_append.1 hc with h1 | h2
      · exact mem_mentionText_not_mp hm16 c h1
      · have hdg := List.all_eq_true.1 hr2d c h2
        exact ⟨ne_digit_of_not_digit hdg (by decide), ne_digit_of_not_digit hdg (by decide)⟩
    unfold process_message_mentions
    rw [hempty]
    simp only [Bool.false_eq_true, if_false]
    have hlen : (patOf k d).length = (d.length + 4) + 1 := by
      cases k <;> simp [patOf, tokName]
    rw [hlen, findAllTok_single htm hrest]
    simp only [List.foldl_cons, List.foldl_nil]
    cases k
    case role =>
      have hsplit : patOf TokKind.role d =
          ('r' :: ('o' :: 'l' :: 'e' :: ':' :: d.take 18)) ++ d.drop 18 := by
        conv_lhs => rw [hd2]
        simp [patOf, tokName]
      have hpat : patOf TokKind.role (d.take 18) =
          'r' :: ('o' :: 'l' :: 'e' :: ':' :: d.take 18) := by
        simp [patOf, tokName]
      have hne : ∀ c ∈ d.drop 18, c ≠ 'r' :=
        fun c hc => ne_digit_of_not_digit (List.all_eq_true.1 hr2d c hc) (by decide)
      have hlen2 : (('r' :: ('o' :: 'l' :: 'e' :: ':' :: d.take 18)) ++ d.drop 18).length
          = (d.length + 4) + 1 := by
        simp only [List.length_append, List.length_cons, List.length_take,
          List.length_drop]
        omega
      rw [hsplit, hpat, hlen2, replaceAll_head_match hne]
      exact labelFold_id hmm2
    case user =>
      have hsplit : patOf TokKind.user d =
          ('u' :: ('s' :: 'e' :: 'r' :: ':' :: d.take 18)) ++ d.drop 18 := by
        conv_lhs => rw [hd2]
        simp [patOf, tokName]
      have hpat : patOf TokKind.user (d.take 18) =
          'u' :: ('s' :: 'e' :: 'r' :: ':' :: d.take 18) := by
        simp [patOf, tokName]
      have hne : ∀ c ∈ d.drop 18, c ≠ 'u' :=
        fun c hc => ne_digit_of_not_digit (List.all_eq_true.1 hr2d c hc) (by decide)
      have hlen2 : (('u' :: ('s' :: 'e' :: 'r' :: ':' :: d.take 18)) ++ d.drop 18).length
          = (d.length + 4) + 1 := by
        simp only [List.length_append, List.length_cons, List.length_take,
          List.length_drop]
        omega
      rw [hsplit, hpat, hlen2, replaceAll_head_match hne]
      exact labelFold_id hmm2

/-- C3 witness: a 5-digit id (`user:12345`) is left untouched. -/
theorem process_message_mentions_id_len_witness :
    process_message_mentions (patOf TokKind.user ['1', '2', '3', '4', '5']) =
      patOf TokKind.user ['1', '2', '3', '4', '5'] :=
  (process_message_mentions_id_len TokKind.user ['1', '2', '3', '4', '5']
    (by decide)).1 (by decide)

/-- C3 counterexample: `user:1234567890123456789` has a 19-digit id, so by
the claim it should be left untouched; instead the unanchored `\d{18}`
matches the first 18 digits and the token is rewritten, leaving the 19th
digit behind the mention. -/
theorem process_message_mentions_19_digit_id :
    process_message_mentions ("user:1234567890123456789".data) =
        "<@!123456789012345678>9".data ∧
      process_message_mentions ("user:1234567890123456789".data) ≠
        "user:1234567890123456789".data := by
  constructor
  · rfl
  · decide

/-! ### C5 helpers -/

theorem ne_of_true_of_false {p : Char → Bool} {c ch : Char} (h : p c = true)
    (h2 : p ch = false) : c ≠ ch := by
  intro he
  rw [he, h2] at h
  cases h

theorem takeWhile_append_all {p : Char → Bool} {a : List Char} (b : List Char)
    (h : a.all p = true) : (a ++ b).takeWhile p = a ++ b.takeWhile p := by
  induction a with
  | nil => simp
  | cons x xs ih =>
    obtain ⟨hx, hxs⟩ := all_cons_split h
    simp [List.takeWhile_cons, hx, ih hxs]

theorem takeWhile_all_eq {p : Char → Bool} {a : List Char} (h : a.all p = true) :
    a.takeWhile p = a := by
  induction a with
  | nil => rfl
  | cons x xs ih =>
    obtain ⟨hx, hxs⟩ := all_cons_split h
    simp [List.takeWhile_cons, hx, ih hxs]

/-- Ordinary hostname characters: letters, digits, dots, hyphens. -/
def isHostChar (c : Char) : Bool := c.isAlpha || c.isDigit || c == '.' || c == '-'

/-- A well-formed remainder after the host: empty, or starting with one of
the netloc delimiters `/`, `?`, `#`. -/
def restOk (rest : List Char) : Prop :=
  rest = [] ∨ ∃ c r', rest = c :: r' ∧ isNetlocEnd c = true

theorem isNetlocEnd_false_of_host {c : Char} (h : isHostChar c = true) :
    isNetlocEnd c = false := by
  unfold isNetlocEnd
  rw [beq_eq_false_iff_ne.mpr (ne_of_true_of_false h (by decide : isHostChar '/' = false)),
    beq_eq_false_iff_ne.mpr (ne_of_true_of_false h (by decide : isHostChar '?' = false)),
    beq_eq_false_iff_ne.mpr (ne_of_true_of_false h (by decide : isHostChar '#' = false))]
  rfl

theorem netloc_take_host {host rest : List Char} (hh : host.all isHostChar = true)
    (hr : restOk rest) :
    (host ++ rest).takeWhile (fun c => !(isNetlocEnd c)) = host := by
  rw [takeWhile_append_all rest
    (List.all_eq_true.2 (fun c hc => by
      rw [isNetlocEnd_false_of_host (List.all_eq_true.1 hh c hc)]
      rfl))]
  rcases hr with rfl | ⟨c, r', rfl, hc⟩
  · simp
  · simp [List.takeWhile_cons, hc]

theorem hostnameOf_plain {host : List Char} (hne : host ≠ [])
    (hh : host.all isHostChar = true) :
    hostnameOf host = some (host.map Char.toLower) := by
  have hnoAt : host.reverse.all (fun c => !(c == '@')) = true :=
    List.all_eq_true.2 (fun c hc => by
      rw [beq_eq_false_iff_ne.mpr (ne_of_true_of_false
        (List.all_eq_true.1 hh c (List.mem_reverse.1 hc))
        (by decide : isHostChar '@' = false))]
      rfl)
  have hnoBr : host.any (fun c => c == '[') = false := by
    cases hany : host.any (fun c => c == '[') with
    | false => rfl
    | true =>
      obtain ⟨c, hc, hcb⟩ := List.any_eq_true.1 hany
      have : c = '[' := by simpa using hcb
      subst this
      have := List.all_eq_true.1 hh _ hc
      cases this
  have hnoColon : host.takeWhile (fun c => !(c == ':')) = host :=
    takeWhile_all_eq (List.all_eq_true.2 (fun c hc => by
      rw [beq_eq_false_iff_ne.mpr (ne_of_true_of_false
        (List.all_eq_true.1 hh c hc) (by decide : isHostChar ':' = false))]
      rfl))
  have hem : host.isEmpty = false := by
    cases host with
    | nil => exact absurd rfl hne
    | cons a l => rfl
  unfold hostnameOf afterLastAt
  simp only [takeWhile_all_eq hnoAt, List.reverse_reverse, hnoBr, Bool.false_eq_true,
    if_false, hnoColon, hem]

theorem splitScheme_http (rest2 : List Char) :
    splitScheme ('h' :: 't' :: 't' :: 'p' :: ':' :: rest2) = (['h', 't', 't', 'p'], rest2) := by
  unfold splitScheme
  simp [List.takeWhile_cons, isSchemeChar]

theorem splitScheme_https (rest2 : List Char) :
    splitScheme ('h' :: 't' :: 't' :: 'p' :: 's' :: ':' :: rest2) =
      (['h', 't', 't', 'p', 's'], rest2) := by
  unfold splitScheme
  simp [List.takeWhile_cons, isSchemeChar]

theorem splitNetloc_slashes (x : List Char) :
    splitNetloc ('/' :: '/' :: x) = x.takeWhile (fun c => !(isNetlocEnd c)) := rfl

theorem url_components_wf (scheme host rest : List Char)
    (hs : scheme = ['h', 't', 't', 'p'] ∨ scheme = ['h', 't', 't', 'p', 's'])
    (hne : host ≠ []) (hh : host.all isHostChar = true) (hr : restOk rest) :
    urlScheme (scheme ++ ':' :: '/' :: '/' :: (host ++ rest)) = scheme ∧
    urlHostname (scheme ++ ':' :: '/' :: '/' :: (host ++ rest)) =
      some (host.map Char.toLower) := by
  rcases hs with rfl | rfl
  · constructor
    · show (splitScheme ('h' :: 't' :: 't' :: 'p' :: ':' :: ('/' :: '/' :: (host ++ rest)))).1 = _
      rw [splitScheme_http]
    · show hostnameOf (splitNetloc
        (splitScheme ('h' :: 't' :: 't' :: 'p' :: ':' :: ('/' :: '/' :: (host ++ rest)))).2) = _
      rw [splitScheme_http, splitNetloc_slashes, netloc_take_host hh hr]
      exact hostnameOf_plain hne hh
  · constructor
    · show (splitScheme ('h' :: 't' :: 't' :: 'p' :: 's' :: ':' :: ('/' :: '/' :: (host ++ rest)))).1 = _
      rw [splitScheme_https]
    · show hostnameOf (splitNetloc
        (splitScheme ('h' :: 't' :: 't' :: 'p' :: 's' :: ':' :: ('/' :: '/' :: (host ++ rest)))).2) = _
      rw [splitScheme_https, splitNetloc_slashes, netloc_take_host hh hr]
      exact hostnameOf_plain hne hh

/-- C5: the URL validator fails with `InvalidUrl` (carrying the input and
the `https_only` mode) exactly when the parsed scheme is not in the
allowed set (`{https}` when strict, `{http, https}` otherwise) or the
hostname is absent, and success is the only other outcome; every
well-formed `http`/`https` URL with a non-empty host passes the
non-strict validator; and an `http` URL under `https_only` fails with
`InvalidUrl(https_only=True)`. -/
theorem urlValidator_spec :
    (∀ (ho : Bool) (v : List Char),
      (urlValidator ho v = Except.ok v ∨
        urlValidator ho v = Except.error (PyErr.invalidUrl v ho)) ∧
      (urlValidator ho v = Except.error (PyErr.invalidUrl v ho) ↔
        ((allowedSchemes ho).contains (urlScheme v) = false ∨
          urlHostname v = Option.none))) ∧
    (∀ (scheme host rest : List Char),
      (scheme = ['h', 't', 't', 'p'] ∨ scheme = ['h', 't', 't', 'p', 's']) →
      host ≠ [] → host.all isHostChar = true → restOk rest →
      urlValidator false (scheme ++ ':' :: '/' :: '/' :: (host ++ rest)) =
        Except.ok (scheme ++ ':' :: '/' :: '/' :: (host ++ rest))) ∧
    (∀ (host rest : List Char), host ≠ [] → host.all isHostChar = true → restOk rest →
      urlValidator true (['h', 't', 't', 'p'] ++ ':' :: '/' :: '/' :: (host ++ rest)) =
        Except.error (PyErr.invalidUrl
          (['h', 't', 't', 'p'] ++ ':' :: '/' :: '/' :: (host ++ rest)) true)) := by
  refine ⟨?_, ?_, ?_⟩
  · intro ho v
    unfold urlValidator
    by_cases hcond :
        ((!(allowedSchemes ho).contains (urlScheme v)) || (urlHostname v).isNone) = true
    · rw [if_pos hcond]
      refine ⟨Or.inr rfl, ⟨fun _ => ?_, fun _ => rfl⟩⟩
      rcases Bool.or_eq_true_iff.1 hcond with h1 | h2
      · exact Or.inl (by simpa using h1)
      · exact Or.inr (Option.isNone_iff_eq_none.1 h2)
    · rw [if_neg hcond]
      have hsplit2 := Bool.or_eq_false_iff.1 (Bool.eq_false_iff.2 hcond)
      refine ⟨Or.inl rfl, ⟨fun h => absurd h (by simp), fun h => ?_⟩⟩
      rcases h with h1 | h2
      · have := hsplit2.1
        rw [h1] at this
        cases this
      · rw [h2] at hsplit2
        cases hsplit2.2
  · intro scheme host rest hs hne hh hr
    obtain ⟨hsch, hhn⟩ := url_components_wf scheme host rest hs hne hh hr
    have hcontains : (allowedSchemes false).contains scheme = true := by
      rcases hs with rfl | rfl <;> decide
    unfold urlValidator
    rw [hsch, hhn, hcontains]
    rfl
  · intro host rest hne hh hr
    obtain ⟨hsch, hhn⟩ :=
      url_components_wf ['h', 't', 't', 'p'] host rest (Or.inl rfl) hne hh hr
    unfold urlValidator
    rw [hsch, hhn]
    rfl

/-- C5 witness: `http://example.com` passes the non-strict validator and
fails the strict (`https_only`) one. -/
theorem urlValidator_spec_witness :
    urlValidator false ("http://example.com".data) =
        Except.ok ("http://example.com".data) ∧
      urlValidator true ("http://example.com".data) =
        Except.error (PyErr.invalidUrl ("http://example.com".data) true) := by
  constructor
  · exact urlValidator_spec.2.1 ['h', 't', 't', 'p'] "example.com".data []
      (Or.inl rfl) (by decide) (by decide) (Or.inl rfl)
  · exact urlValidator_spec.2.2 "example.com".data [] (by decide) (by decide) (Or.inl rfl)

theorem applyGroups_eq_join {α : Type} :
    ∀ (gs : List (String × List (α → α))) (f : α),
      gs.foldl (fun f g => FlagAdder.applyFlags g.2 f) f =
        ((gs.map Prod.snd).flatten).foldl (fun f g => g f) f := by
  intro gs
  induction gs with
  | nil => intro f; rfl
  | cons g rest ih =>
    intro f
    simp only [List.foldl_cons, List.map_cons, List.flatten_cons, List.foldl_append]
    rw [ih]
    rfl

/-- C7: activating a `FlagAdder` on a target with a truthy `all` selector
ignores every other keyword argument, applies every registered group
exactly once in registration order — each group's flag decorators in
their declared order — and returns the (decorated) target without any
error. -/
theorem flagAdder_all {α : Type} (fa : FlagAdder α) (func : α)
    (kwargs : List (String × Bool)) (h : (kwargs.lookup "all").getD false = true) :
    FlagAdder.call fa func kwargs =
      Except.ok (((fa.kwarg_map.map Prod.snd).flatten).foldl (fun f g => g f) func) := by
  unfold FlagAdder.call
  rw [h]
  simp only [if_true]
  rw [applyGroups_eq_join]

/-- C7 witness: two registered groups, an extra (ignored) falsy selector,
`all=True`; both groups are applied in order. -/
theorem flagAdder_all_witness :
    FlagAdder.call
      (⟨[("basic", [fun l => 1 :: l]), ("image", [fun l => 2 :: l, fun l => 3 :: l])],
        false⟩ : FlagAdder (List Nat))
      [] [("all", true), ("image", false)] = Except.ok [3, 2, 1] :=
  flagAdder_all
    ⟨[("basic", [fun l => 1 :: l]), ("image", [fun l => 2 :: l, fun l => 3 :: l])], false⟩
    [] [("all", true), ("image", false)] rfl

/-- C9: for every mapping containing the three mention keys, the policy
assembler forwards `everyonemention` / `rolementions` / `usermentions`
to the everyone / roles / users settings; with the registered flag
defaults (everyone `False`, roles `False`, users `True`) the result
disallows everyone and role mentions and allows user mentions. -/
theorem dict_to_allowed_mentions_spec :
    (∀ (d : Dict) (e r u : PyVal),
      d "everyonemention" = some e → d "rolementions" = some r →
      d "usermentions" = some u →
      dict_to_allowed_mentions d = Except.ok ⟨e, r, u⟩) ∧
    dict_to_allowed_mentions (Dict.ofList allowed_mentions_flag_defaults) =
      Except.ok ⟨PyVal.bool false, PyVal.bool false, PyVal.bool true⟩ := by
  constructor
  · intro d e r u he hr hu
    have hr1 : ((d.pop "everyonemention").2) "rolementions" = some r := by
      show (if "rolementions" = "everyonemention" then Option.none
        else d "rolementions") = some r
      rw [if_neg (by decide)]
      exact hr
    have hu1 : (((d.pop "everyonemention").2.pop "rolementions").2) "usermentions"
        = some u := by
      show (if "usermentions" = "rolementions" then Option.none
        else if "usermentions" = "everyonemention" then Option.none
        else d "usermentions") = some u
      rw [if_neg (by decide), if_neg (by decide)]
      exact hu
    simp only [dict_to_allowed_mentions, he, hr1, hu1]
  · rfl

/-- C9 witness: the defaults mapping contains the three keys and yields
the safe-by-default policy. -/
theorem dict_to_allowed_mentions_spec_witness :
    dict_to_allowed_mentions
      (Dict.ofList [("everyonemention", PyVal.bool false),
        ("rolementions", PyVal.bool false), ("usermentions", PyVal.bool true)]) =
      Except.ok ⟨PyVal.bool false, PyVal.bool false, PyVal.bool true⟩ :=
  dict_to_allowed_mentions_spec.1 _ _ _ _ rfl rfl rfl

/-! ### Stage lemmas for `dict_to_embed` -/

theorem setSimpleAttrs_snd (d : Dict) (e : Embed) (k : String)
    (h1 : k ≠ "title") (h2 : k ≠ "description") (h3 : k ≠ "colour") :
    (setSimpleAttrs d e).2 k = d k := by
  show (if k = "colour" then Option.none
    else if k = "description" then Option.none
    else if k = "title" then Option.none else d k) = d k
  rw [if_neg h3, if_neg h2, if_neg h1]

theorem setSimpleAttrs_fst_fields (d : Dict) (e : Embed) :
    (setSimpleAttrs d e).1.fields = e.fields := by
  unfold setSimpleAttrs
  dsimp only [Dict.popD]
  split <;> split <;> split <;> rfl

theorem setSimpleAttrs_fst_colour (d : Dict) (e : Embed)
    (h : d "colour" = some (PyVal.int 0)) :
    (setSimpleAttrs d e).1.colour = e.colour := by
  have hc : ((((d.pop "title").2.pop "description").2) "colour").getD PyVal.none
      = PyVal.int 0 := by
    show ((if "colour" = "description" then Option.none
      else if "colour" = "title" then Option.none else d "colour")).getD PyVal.none = _
    rw [if_neg (by decide), if_neg (by decide), h]
    rfl
  unfold setSimpleAttrs
  dsimp only [Dict.popD]
  rw [hc, if_neg (by decide : ¬ (PyVal.int 0).truthy = true)]
  split <;> split <;> rfl

theorem setImageAttrs_snd (d : Dict) (e : Embed) (k : String)
    (h1 : k ≠ "thumbnail") (h2 : k ≠ "image") :
    (setImageAttrs d e).2 k = d k := by
  show (if k = "image" then Option.none
    else if k = "thumbnail" then Option.none else d k) = d k
  rw [if_neg h2, if_neg h1]

theorem setImageAttrs_fst_fields (d : Dict) (e : Embed) :
    (setImageAttrs d e).1.fields = e.fields := by
  unfold setImageAttrs
  dsimp only [Dict.popD]
  split <;> split <;> rfl

theorem setImageAttrs_fst_colour (d : Dict) (e : Embed) :
    (setImageAttrs d e).1.colour = e.colour := by
  unfold setImageAttrs
  dsimp only [Dict.popD]
  split <;> split <;> rfl

theorem setAuthorAttrs_ok (d : Dict) (a : Option DUser) (e : Embed) (va : PyVal)
    (h : d "autoauthor" = some va) :
    ∃ e2 d2, setAuthorAttrs d a e = Except.ok (e2, d2) ∧
      e2.fields = e.fields ∧ e2.colour = e.colour ∧
      (∀ k, k ≠ "autoauthor" → k ≠ "authoricon" → k ≠ "authorurl" →
        k ≠ "authorname" → d2 k = d k) := by
  simp only [setAuthorAttrs, h]
  have hf1 : (∀ e1x : Embed,
      (if va.truthy then
        match a with
        | some u => { e1x with author := some ⟨PyVal.str u.display_name,
            some (PyVal.str u.avatar_url), Option.none⟩ }
        | Option.none => e1x
      else e1x).fields = e1x.fields ∧
      (if va.truthy then
        match a with
        | some u => { e1x with author := some ⟨PyVal.str u.display_name,
            some (PyVal.str u.avatar_url), Option.none⟩ }
        | Option.none => e1x
      else e1x).colour = e1x.colour) := by
    intro e1x
    constructor <;> (split; · cases a <;> rfl
                     · rfl)
  split
  · refine ⟨_, _, rfl, (hf1 e).1, (hf1 e).2, ?_⟩
    intro k hk1 hk2 hk3 hk4
    show (if k = "authorname" then Option.none
      else if k = "authorurl" then Option.none
      else if k = "authoricon" then Option.none
      else if k = "autoauthor" then Option.none else d k) = d k
    rw [if_neg hk4, if_neg hk3, if_neg hk2, if_neg hk1]
  · refine ⟨_, _, rfl, (hf1 e).1, (hf1 e).2, ?_⟩
    intro k hk1 _ _ _
    show (if k = "autoauthor" then Option.none else d k) = d k
    rw [if_neg hk1]

theorem setFooterAttrs_fst (d : Dict) (e : Embed) :
    (setFooterAttrs d e).1.fields = e.fields ∧
      (setFooterAttrs d e).1.colour = e.colour := by
  unfold setFooterAttrs
  dsimp only [Dict.popD]
  constructor <;> (split <;> rfl)

theorem setFooterAttrs_snd (d : Dict) (e : Embed) (k : String)
    (h1 : k ≠ "footericon") (h2 : k ≠ "footertext") :
    (setFooterAttrs d e).2 k = d k := by
  unfold setFooterAttrs
  dsimp only [Dict.popD]
  split
  · show (if k = "footertext" then Option.none
      else if k = "footericon" then Option.none else d k) = d k
    rw [if_neg h2, if_neg h1]
  · rfl

/-- When the dictionary contains `"autoauthor"`, assembly reaches the
fields step with an embed whose field list is still empty (and, when the
colour input was the integer 0, with no colour set), looking up
`"fields"` in the original dictionary. -/
theorem dict_to_embed_shape (d : Dict) (a : Option DUser) (va : PyVal)
    (h : d "autoauthor" = some va) :
    ∃ e4 : Embed, e4.fields = [] ∧
      dict_to_embed d a = embedFieldsStep e4 (d "fields") ∧
      (d "colour" = some (PyVal.int 0) → e4.colour = Option.none) := by
  have h2 : (setImageAttrs (setSimpleAttrs d Embed.empty).2
      (setSimpleAttrs d Embed.empty).1).2 "autoauthor" = some va := by
    rw [setImageAttrs_snd _ _ _ (by decide) (by decide),
      setSimpleAttrs_snd _ _ _ (by decide) (by decide) (by decide)]
    exact h
  obtain ⟨e3, d3, hok, hf3, hc3, hd3⟩ :=
    setAuthorAttrs_ok (setImageAttrs (setSimpleAttrs d Embed.empty).2
      (setSimpleAttrs d Embed.empty).1).2 a
      (setImageAttrs (setSimpleAttrs d Embed.empty).2
        (setSimpleAttrs d Embed.empty).1).1 va h2
  refine ⟨(setFooterAttrs d3 e3).1, ?_, ?_, ?_⟩
  · rw [(setFooterAttrs_fst d3 e3).1, hf3, setImageAttrs_fst_fields,
      setSimpleAttrs_fst_fields]
    rfl
  · simp only [dict_to_embed, hok]
    have hfk : (setFooterAttrs d3 e3).2 "fields" = d "fields" := by
      rw [setFooterAttrs_snd _ _ _ (by decide) (by decide),
        hd3 _ (by decide) (by decide) (by decide) (by decide),
        setImageAttrs_snd _ _ _ (by decide) (by decide),
        setSimpleAttrs_snd _ _ _ (by decide) (by decide) (by decide)]
    rw [hfk]
  · intro hc0
    have hcs : (setSimpleAttrs d Embed.empty).1.colour = Option.none :=
      setSimpleAttrs_fst_colour d Embed.empty hc0
    rw [(setFooterAttrs_fst d3 e3).2, hc3, setImageAttrs_fst_colour, hcs]

/-- The spec-side pairing: split the list pairwise into
`(name, value)` pairs, in input order. -/
def pairUp : List String → List (String × String)
  | a :: b :: rest => (a, b) :: pairUp rest
  | _ => []

theorem sliceStep2_cons (b : String) (rest : List String) :
    sliceStep2 (b :: rest) = b :: sliceStep2 (rest.drop 1) := by
  cases rest <;> rfl

theorem zip_slice_eq_pairUp (l : List String) :
    (sliceStep2 l).zip (sliceStep2 (l.drop 1)) = pairUp l := by
  have haux : ∀ (n : Nat) (l : List String), l.length ≤ n →
      (sliceStep2 l).zip (sliceStep2 (l.drop 1)) = pairUp l := by
    intro n
    induction n with
    | zero =>
      intro l hl
      cases l with
      | nil => rfl
      | cons a r => simp at hl
    | succ m ih =>
      intro l hl
      match l with
      | [] => rfl
      | [a] => rfl
      | a :: b :: rest =>
        have hr : rest.length ≤ m := by
          simp only [List.length_cons] at hl
          omega
        show ((a :: sliceStep2 rest).zip (sliceStep2 (b :: rest))) = pairUp (a :: b :: rest)
        rw [sliceStep2_cons, List.zip_cons_cons, ih rest hr]
        rfl
  exact haux l.length l (Nat.le_refl _)

theorem pairUp_eq_nil {l : List String} (hev : l.length % 2 = 0)
    (h : pairUp l = []) : l = [] := by
  match l with
  | [] => rfl
  | [a] => simp at hev
  | a :: b :: rest => cases h

theorem extractFields_list (l : List String) :
    extractFields (PyVal.list l) = Except.ok l := by
  cases l <;> rfl

/-- C6: with `"fields"` bound to a sequence (and `"autoauthor"` present so
assembly reaches the fields step), an odd-length sequence fails with
`InvalidFieldArgs`; an even-length sequence is split pairwise into
`(name, value)` embed fields preserving input order (the only other
outcome, for the empty sequence, is the empty-embed error). -/
theorem dict_to_embed_fields_pairing (d : Dict) (a : Option DUser) (va : PyVal)
    (l : List String) (h : d "autoauthor" = some va)
    (hfld : d "fields" = some (PyVal.list l)) :
    (l.length % 2 = 1 → dict_to_embed d a = Except.error PyErr.invalidFieldArgs) ∧
    (l.length % 2 = 0 →
      ((∃ e, dict_to_embed d a = Except.ok e ∧ e.fields = pairUp l) ∨
        (dict_to_embed d a = Except.error PyErr.emptyEmbed ∧ l = []))) := by
  obtain ⟨e4, hf4, heq, _⟩ := dict_to_embed_shape d a va h
  rw [heq, hfld]
  simp only [embedFieldsStep, extractFields_list]
  constructor
  · intro hodd
    rw [if_pos hodd]
  · intro hev
    rw [if_neg (by omega)]
    by_cases hemp :
        ({ e4 with fields := (sliceStep2 l).zip (sliceStep2 (l.drop 1)) }).isEmptyRich = true
    · rw [if_pos hemp]
      refine Or.inr ⟨rfl, ?_⟩
      have hfe : ({ e4 with
          fields := (sliceStep2 l).zip (sliceStep2 (l.drop 1)) }).fields.isEmpty = true := by
        unfold Embed.isEmptyRich at hemp
        simp only [Bool.and_eq_true] at hemp
        exact hemp.2
      have hpe : pairUp l = [] := by
        rw [← zip_slice_eq_pairUp]
        exact List.isEmpty_iff.1 hfe
      exact pairUp_eq_nil hev hpe
    · rw [if_neg hemp]
      exact Or.inl ⟨_, rfl, zip_slice_eq_pairUp l⟩

/-- C6 witness: `["a", "b", "c"]` has odd length, so assembly fails with
`InvalidFieldArgs`. -/
theorem dict_to_embed_fields_pairing_witness :
    dict_to_embed (Dict.ofList [("autoauthor", PyVal.bool false),
      ("fields", PyVal.list ["a", "b", "c"])]) Option.none =
      Except.error PyErr.invalidFieldArgs :=
  (dict_to_embed_fields_pairing _ Option.none (PyVal.bool false) ["a", "b", "c"]
    rfl rfl).1 (by decide)

/-- C1 counterexample: assembling from the empty mapping does not fail
with the empty-embed error; `data.pop("autoauthor")` has no default, so
it raises `KeyError("autoauthor")` first. -/
theorem dict_to_embed_empty_keyError :
    dict_to_embed Dict.empty Option.none = Except.error (PyErr.keyError "autoauthor") ∧
      PyErr.keyError "autoauthor" ≠ PyErr.emptyEmbed :=
  ⟨rfl, by decide⟩

/-- C1 (amended): most absent keys are treated as `None`, but
`"autoauthor"` (and `"fields"`) are popped without a default: whenever
`"autoauthor"` is absent — in particular for `{}` — assembly fails with
`KeyError("autoauthor")`; the empty-embed error is reached when those two
keys are present but falsy and every attribute stays unpopulated. -/
theorem dict_to_embed_empty_behaviour :
    (∀ (d : Dict) (a : Option DUser), d "autoauthor" = Option.none →
      dict_to_embed d a = Except.error (PyErr.keyError "autoauthor")) ∧
    dict_to_embed (Dict.ofList [("autoauthor", PyVal.bool false), ("fields", PyVal.none)])
      Option.none = Except.error PyErr.emptyEmbed := by
  constructor
  · intro d a h
    have h2 : (setImageAttrs (setSimpleAttrs d Embed.empty).2
        (setSimpleAttrs d Embed.empty).1).2 "autoauthor" = Option.none := by
      rw [setImageAttrs_snd _ _ _ (by decide) (by decide),
        setSimpleAttrs_snd _ _ _ (by decide) (by decide) (by decide)]
      exact h
    have hauth : setAuthorAttrs (setImageAttrs (setSimpleAttrs d Embed.empty).2
        (setSimpleAttrs d Embed.empty).1).2 a
        (setImageAttrs (setSimpleAttrs d Embed.empty).2
          (setSimpleAttrs d Embed.empty).1).1 =
        Except.error (PyErr.keyError "autoauthor") := by
      simp only [setAuthorAttrs, h2]
    simp only [dict_to_embed, hauth]
  · rfl

/-- C1 witness: the empty mapping has no `"autoauthor"` key. -/
theorem dict_to_embed_empty_behaviour_witness :
    dict_to_embed Dict.empty (some ⟨"n", "a"⟩) =
      Except.error (PyErr.keyError "autoauthor") :=
  dict_to_embed_empty_behaviour.1 Dict.empty (some ⟨"n", "a"⟩) rfl

/-- C4 counterexample: assembling from
`{"title": "Hi", "fields": ["n1","v1","n2","v2"]}` does not succeed; the
defaultless `data.pop("autoauthor")` raises `KeyError` first. -/
theorem dict_to_embed_title_fields_keyError :
    dict_to_embed (Dict.ofList [("title", PyVal.str "Hi"),
      ("fields", PyVal.list ["n1", "v1", "n2", "v2"])]) Option.none =
      Except.error (PyErr.keyError "autoauthor") := rfl

/-- C4 (amended): once the mapping also carries the (falsy)
`"autoauthor"` key that the assembler unconditionally pops, assembly
succeeds with title `"Hi"` and exactly the fields
`("n1","v1"), ("n2","v2")` in input order. -/
theorem dict_to_embed_title_fields_ok :
    dict_to_embed (Dict.ofList [("title", PyVal.str "Hi"),
      ("autoauthor", PyVal.bool false),
      ("fields", PyVal.list ["n1", "v1", "n2", "v2"])]) Option.none =
      Except.ok ⟨some (PyVal.str "Hi"), Option.none, Option.none, Option.none,
        Option.none, Option.none, Option.none, [("n1", "v1"), ("n2", "v2")]⟩ := rfl

/-- C10: `"#000000"` parses to the integer 0; because attributes are only
set when the popped value is truthy, a colour equal to 0 is silently
discarded (the assembled embed has no colour), and with nothing else
populated assembly fails with the empty-embed error instead of producing
a black embed. -/
theorem dict_to_embed_colour_zero :
    colortype ['#', '0', '0', '0', '0', '0', '0'] = Except.ok 0 ∧
    (∀ (d : Dict) (a : Option DUser) (va : PyVal) (e : Embed),
      d "autoauthor" = some va → d "colour" = some (PyVal.int 0) →
      dict_to_embed d a = Except.ok e → e.colour = Option.none) ∧
    dict_to_embed (Dict.ofList [("colour", PyVal.int 0),
      ("autoauthor", PyVal.bool false), ("fields", PyVal.none)]) Option.none =
      Except.error PyErr.emptyEmbed := by
  refine ⟨rfl, ?_, rfl⟩
  intro d a va e h hc hok
  obtain ⟨e4, hf4, heq, hcol⟩ := dict_to_embed_shape d a va h
  have hc4 : e4.colour = Option.none := hcol hc
  rw [heq] at hok
  unfold embedFieldsStep at hok
  cases hvf : d "fields" with
  | none =>
    simp only [hvf] at hok
    cases hok
  | some vf =>
    simp only [hvf] at hok
    cases hex : extractFields vf with
    | error err =>
      simp only [hex] at hok
      cases hok
    | ok fields =>
      simp only [hex] at hok
      by_cases hodd : fields.length % 2 = 1
      · rw [if_pos hodd] at hok
        cases hok
      · rw [if_neg hodd] at hok
        set e5 := { e4 with fields := (sliceStep2 fields).zip (sliceStep2 (fields.drop 1)) } with he5
        by_cases hemp : e5.isEmptyRich = true
        · rw [if_pos hemp] at hok
          cases hok
        · rw [if_neg hemp] at hok
          have he : e = e5 := (Except.ok.inj hok).symm
          rw [he, he5]
          exact hc4

/-- C10 witness: with colour 0 and a title, assembly succeeds and the
resulting embed has no colour set. -/
theorem dict_to_embed_colour_zero_witness :
    (⟨some (PyVal.str "t"), Option.none, Option.none, Option.none, Option.none,
      Option.none, Option.none, []⟩ : Embed).colour = Option.none :=
  dict_to_embed_colour_zero.2.1
    (Dict.ofList [("colour", PyVal.int 0), ("title", PyVal.str "t"),
      ("autoauthor", PyVal.bool false), ("fields", PyVal.none)])
    Option.none (PyVal.bool false) _ rfl rfl rfl

theorem setFooterAttrs_skip (d : Dict) (e : Embed)
    (h : d "footertext" = Option.none) : setFooterAttrs d e = (e, d) := by
  simp only [setFooterAttrs, h, Bool.false_eq_true, if_false]

theorem setAuthorAttrs_override (d : Dict) (u : DUser) (e : Embed) (va : PyVal)
    (n : String) (hva : d "autoauthor" = some va) (hvat : va.truthy = true)
    (hn : d "authorname" = some (PyVal.str n)) (hnn : n ≠ "")
    (hic : d "authoricon" = Option.none) (hur : d "authorurl" = Option.none) :
    setAuthorAttrs d (some u) e =
        Except.ok ({ e with author := some ⟨PyVal.str n, Option.none, Option.none⟩ },
          ((((d.pop "autoauthor").2.pop "authoricon").2.pop "authorurl").2.pop
            "authorname").2) := by
  have hb : (n == "") = false := beq_eq_false_iff_ne.mpr hnn
  have hn1 : (d.pop "autoauthor").2 "authorname" = some (PyVal.str n) := by
    show (if "authorname" = "autoauthor" then Option.none else d "authorname") = _
    rw [if_neg (by decide)]
    exact hn
  have hic1 : (d.pop "autoauthor").2 "authoricon" = Option.none := by
    show (if "authoricon" = "autoauthor" then Option.none else d "authoricon") = _
    rw [if_neg (by decide)]
    exact hic
  have hur1 : (((d.pop "autoauthor").2.pop "authoricon").2) "authorurl" = Option.none := by
    show (if "authorurl" = "authoricon" then Option.none
      else if "authorurl" = "autoauthor" then Option.none else d "authorurl") = _
    rw [if_neg (by decide), if_neg (by decide)]
    exact hur
  have hnm2 : ((((d.pop "autoauthor").2.pop "authoricon").2.pop "authorurl").2) "authorname"
      = some (PyVal.str n) := by
    show (if "authorname" = "authorurl" then Option.none
      else if "authorname" = "authoricon" then Option.none
      else if "authorname" = "autoauthor" then Option.none else d "authorname") = _
    rw [if_neg (by decide), if_neg (by decide), if_neg (by decide)]
    exact hn
  have hsn : (PyVal.str n).truthy = true := by simp [PyVal.truthy, hb]
  have hnone : PyVal.none.truthy = false := rfl
  simp [setAuthorAttrs, hva, hvat, hn1, hic1, hur1, hnm2, hsn, hnone, Dict.popD]

/-- C8: the autoauthor branch and the explicit authorname branch are not
mutually exclusive.  With `autoauthor` truthy, an author supplied and a
non-empty `authorname`, both branches run — autoauthor first — and the
explicit branch overrides the autoauthor-set author block; with
`authorname` absent the autoauthor branch's author data (display name
and avatar icon) remains. -/
theorem dict_to_embed_author_override (n : String) (u : DUser) (h : n ≠ "") :
    dict_to_embed (Dict.ofList [("autoauthor", PyVal.bool true),
        ("authorname", PyVal.str n), ("fields", PyVal.none)]) (some u) =
      Except.ok ⟨Option.none, Option.none, Option.none, Option.none, Option.none,
        some ⟨PyVal.str n, Option.none, Option.none⟩, Option.none, []⟩ ∧
    dict_to_embed (Dict.ofList [("autoauthor", PyVal.bool true), ("fields", PyVal.none)])
        (some u) =
      Except.ok ⟨Option.none, Option.none, Option.none, Option.none, Option.none,
        some ⟨PyVal.str u.display_name, some (PyVal.str u.avatar_url), Option.none⟩,
        Option.none, []⟩ := by
  constructor
  · have hset := setAuthorAttrs_override
      (setImageAttrs (setSimpleAttrs (Dict.ofList [("autoauthor", PyVal.bool true),
          ("authorname", PyVal.str n), ("fields", PyVal.none)]) Embed.empty).2
        (setSimpleAttrs (Dict.ofList [("autoauthor", PyVal.bool true),
          ("authorname", PyVal.str n), ("fields", PyVal.none)]) Embed.empty).1).2
      u
      (setImageAttrs (setSimpleAttrs (Dict.ofList [("autoauthor", PyVal.bool true),
          ("authorname", PyVal.str n), ("fields", PyVal.none)]) Embed.empty).2
        (setSimpleAttrs (Dict.ofList [("autoauthor", PyVal.bool true),
          ("authorname", PyVal.str n), ("fields", PyVal.none)]) Embed.empty).1).1
      (PyVal.bool true) n rfl rfl rfl h rfl rfl
    simp only [dict_to_embed, hset]
    rw [setFooterAttrs_skip _ _ rfl]
    rfl
  · rfl

/-- C8 witness: a concrete name and author. -/
theorem dict_to_embed_author_override_witness :
    dict_to_embed (Dict.ofList [("autoauthor", PyVal.bool true),
        ("authorname", PyVal.str "Explicit"), ("fields", PyVal.none)])
      (some ⟨"AutoName", "http-avatar"⟩) =
      Except.ok ⟨Option.none, Option.none, Option.none, Option.none, Option.none,
        some ⟨PyVal.str "Explicit", Option.none, Option.none⟩, Option.none, []⟩ :=
  (dict_to_embed_author_override "Explicit" ⟨"AutoName", "http-avatar"⟩ (by decide)).1
